import Mathlib

/- Shallow embedding of the graph-partitioning and recompute-insertion engine of the
   onnxruntime training fork: the transformer-layer recompute pass
   (orttraining/core/optimizer/transformer_layer_recompute.cc) and the module gradient
   graph builder (orttraining/core/framework/module_gradient_graph_builder.cc).

   Graphs are lists of nodes; the list order plays the role of the node-index order and
   of the topological visitation order used by the C++ code (GraphViewer returns the
   nodes of a resolved graph in a topological order; in the concrete graphs below the
   list order is topological).  Tensor references (NodeArg) are identified by their
   names, as in the source, where all NodeArgs of a graph with the same name are the
   same object. -/

namespace OrtGraph

/-- An operation node: stable name, operator type, free-form description (used to tag
backward-pass nodes), ordered input/output tensor-reference names, attributes, domain
and scheduling priority — the fields of onnxruntime::Node that the embedded code
reads or writes. -/
structure Node where
  name : String
  opType : String
  description : String
  inputs : List String
  outputs : List String
  attrs : List (String × Int)
  domain : String
  priority : Int
deriving DecidableEq

/-- A dataflow graph: nodes, initializer names, declared inputs and declared outputs. -/
structure Graph where
  nodes : List Node
  initializers : List String
  inputs : List String
  outputs : List String
deriving DecidableEq

def kMSDomain : String := "com.microsoft"

/-- Graph::GetProducerNode — the node producing a tensor reference, if any. -/
def producerOf (g : Graph) (arg : String) : Option Node :=
  g.nodes.find? (fun n => decide (arg ∈ n.outputs))

/-- Graph::GetConsumerNodes — the nodes consuming a tensor reference, in index order. -/
def consumersOf (g : Graph) (arg : String) : List Node :=
  g.nodes.filter (fun n => decide (arg ∈ n.inputs))

/-- Node::OutputNodesBegin..End — the consumers of any output of `n`, in index order. -/
def outputNodes (g : Graph) (n : Node) : List Node :=
  g.nodes.filter (fun m => decide (∃ o ∈ n.outputs, o ∈ m.inputs))

/-- Node::InputNodesBegin..End — the producers of the inputs of `n`, in index order. -/
def inputNodes (g : Graph) (n : Node) : List Node :=
  g.nodes.filter (fun m => decide (∃ i ∈ n.inputs, i ∈ m.outputs))

/-- Node::GetOutputEdgesCount — one edge per consuming input slot of a consumer node. -/
def outputEdgesCount (g : Graph) (n : Node) : Nat :=
  (g.nodes.map (fun m => (m.inputs.filter (fun i => decide (i ∈ n.outputs))).length)).sum

/-- Dereferencing Node::OutputNodesBegin — the consumer with the smallest node index
(output edges are ordered by destination node index first). -/
def firstOutputNode (g : Graph) (n : Node) : Option Node :=
  (outputNodes g n).head?

/-! ## TransformerLayerRecompute: boundary detection -/

def geluOps : List String := ["Gelu", "BiasGelu", "FastGelu"]

def dropoutOps : List String := ["Dropout", "BiasDropout", "TrainableDropout"]

/-- Start-of-layer test of IdentifyTransformerLayerEdges: LayerNormalization or a
dropout-family op with exactly 4 outgoing consumer edges. -/
def isLayerStart (g : Graph) (n : Node) : Bool :=
  (n.opType == "LayerNormalization" || dropoutOps.contains n.opType) &&
    decide (outputEdgesCount g n = 4)

/-- The start references collected by the topological scan (first output of each
matching node, in scan order). -/
def layerStartEdges (g : Graph) : List String :=
  (g.nodes.filter (isLayerStart g)).map (fun n => n.outputs.headD "")

/-- The while-loops of the end-of-layer search: starting at `n`, advance to the first
output node while the current node has an output node and does not satisfy `isStop`.
The C++ loop terminates on acyclic graphs within `g.nodes.length` hops, which is the
fuel used by the caller. -/
def advanceChain (g : Graph) (isStop : Node → Bool) : Node → Nat → Node
  | n, 0 => n
  | n, fuel + 1 =>
    match firstOutputNode g n with
    | none => n
    | some m => if isStop n then n else advanceChain g isStop m fuel

/-- End-of-layer search from a GELU-family node: follow the first-consumer chain while
not at a dropout-family op, then while not at a LayerNormalization; contribute the
final node's first output iff that node is a LayerNormalization.  (If the GELU node has
no consumer at all, the C++ dereferences an end iterator; no contribution is modelled.) -/
def endEdgeOf (g : Graph) (n : Node) : Option String :=
  match firstOutputNode g n with
  | none => none
  | some c =>
    let d := advanceChain g (fun m => dropoutOps.contains m.opType) c g.nodes.length
    let ln := advanceChain g (fun m => m.opType == "LayerNormalization") d g.nodes.length
    if ln.opType == "LayerNormalization" then some (ln.outputs.headD "") else none

/-- The end references collected by the topological scan. -/
def layerEndEdges (g : Graph) : List String :=
  g.nodes.filterMap (fun n => if geluOps.contains n.opType then endEdgeOf g n else none)

/-- IdentifyTransformerLayerEdges: fails iff the start and end counts differ, otherwise
pairs them up positionally. -/
def identifyTransformerLayerEdges (g : Graph) : Except String (List (String × String)) :=
  if (layerStartEdges g).length = (layerEndEdges g).length then
    .ok ((layerStartEdges g).zip (layerEndEdges g))
  else
    .error "Number of start and end edges does not match"

/-! ## TransformerLayerRecompute: span extraction (NodesBetweenEdges) -/

/-- One round of breadth-first expansion: add every graph node not yet visited that is
a neighbour of a visited node. -/
def expandOnce (g : Graph) (nbrs : Node → List Node) (visited : List Node) : List Node :=
  visited ++ g.nodes.filter (fun m => decide (m ∉ visited) && decide (∃ v ∈ visited, m ∈ nbrs v))

/-- The visited set of the breadth-first traversals of NodesBetweenEdges, as a fuelled
fixpoint iteration; `g.nodes.length` rounds always reach the fixpoint. -/
def closure (g : Graph) (nbrs : Node → List Node) (seed : List Node) : Nat → List Node
  | 0 => seed
  | fuel + 1 => expandOnce g nbrs (closure g nbrs seed fuel)

/-- fw_visited: forward BFS from the consumers of the start reference (inclusive). -/
def fwVisited (g : Graph) (start : String) : List Node :=
  closure g (outputNodes g) (consumersOf g start) g.nodes.length

/-- bw_visited: reverse BFS from the producer of the end reference; the producer itself
is not inserted into the visited set. -/
def bwVisited (g : Graph) (endArg : String) : List Node :=
  match producerOf g endArg with
  | none => []
  | some p => closure g (inputNodes g) (inputNodes g p) g.nodes.length

/-- NodesBetweenEdges: the intersection of the two visited sets, in node-index order
(the C++ NodeSet is ordered by NodeCompare, i.e. by node index). -/
def nodesBetweenEdges (g : Graph) (start endArg : String) : List Node :=
  g.nodes.filter (fun n => decide (n ∈ fwVisited g start) && decide (n ∈ bwVisited g endArg))

/-! ## TransformerLayerRecompute: node duplication (InsertRecomputeNodes) -/

def recomputeSuffix (s : String) : String := s ++ "_recompute"

/-- An input keeps its original reference iff it is an initializer or its producer is
not inside the recomputed span. -/
def keepOriginalInput (g : Graph) (span : List Node) (input : String) : Bool :=
  decide (input ∈ g.initializers) ||
    (match producerOf g input with
     | none => true
     | some p => decide (p ∉ span))

/-- The duplicate built for one span node: dropout-family ops (TrainableDropout and
Dropout only) become a TrainableDropoutGrad fed by the original mask; every other op
keeps its type and attributes.  All duplicates are deprioritised (priority -10). -/
def dupNode (g : Graph) (span : List Node) (n : Node) : Node :=
  if n.opType == "TrainableDropout" || n.opType == "Dropout" then
    let input0 := n.inputs.headD ""
    let rin := if keepOriginalInput g span input0 then input0 else recomputeSuffix input0
    { name := n.name ++ "_recompute"
      opType := "TrainableDropoutGrad"
      description := "Recompute of " ++ n.name
      inputs := [rin, n.outputs.getD 1 "", n.inputs.getD 1 ""]
      outputs := [recomputeSuffix (n.outputs.headD "")]
      attrs := []
      domain := kMSDomain
      priority := -10 }
  else
    { name := n.name ++ "_recompute"
      opType := n.opType
      description := "Recompute of " ++ n.name
      inputs := n.inputs.map (fun i => if keepOriginalInput g span i then i else recomputeSuffix i)
      outputs := n.outputs.map recomputeSuffix
      attrs := n.attrs
      domain := n.domain
      priority := -10 }

/-- InsertRecomputeNodes: append one duplicate per span node, looking producers up in
the evolving graph as the C++ does. -/
def insertRecomputeNodes (g : Graph) (span : List Node) : Graph :=
  span.foldl (fun acc n => { acc with nodes := acc.nodes ++ [dupNode acc span n] }) g

/-- ApplyImpl: identify boundaries (propagating its failure without touching the graph
or the modified flag), then for each pair extract the span on the current graph and
insert the duplicates; on success the modified flag is set unconditionally. -/
def applyImpl (g : Graph) (modified : Bool) : Graph × Bool × Option String :=
  match identifyTransformerLayerEdges g with
  | .error e => (g, modified, some e)
  | .ok pairs =>
    (pairs.foldl (fun acc p => insertRecomputeNodes acc (nodesBetweenEdges acc p.1 p.2)) g,
     true, none)

/-! ## ModuleGradientGraphBuilder -/

/-- The split-graph metadata record (struct SplitGraphsInfo), with the field names of
the source. -/
structure SplitInfo where
  user_input_names : List String := []
  user_output_names : List String := []
  initializer_names_to_train : List String := []
  user_input_grad_names : List (String × String) := []
  user_output_grad_names : List String := []
  backward_output_grad_names : List String := []
  intermediate_tensor_names : List String := []
  backward_user_input_names : List String := []
  backward_intializer_names_as_input : List String := []
  initializer_grad_names_to_train : List String := []
  ordered_initializer_names : List String := []
deriving DecidableEq

/-- Insertion into an accumulated name set, keeping first-encounter order. -/
def insertName (l : List String) (x : String) : List String :=
  if x ∈ l then l else l ++ [x]

def insertAll (l : List String) (xs : List String) : List String :=
  xs.foldl insertName l

/-- GetInputAndOutputNames accumulated over a node list: the set of `f`-names of the
nodes, in first-encounter order. -/
def gatherBy (f : Node → List String) (nodes : List Node) : List String :=
  nodes.foldl (fun acc n => insertAll acc (f n)) []

/-- The backward-pass marker written into Node::Description by the differentiator. -/
def backwardMarker : String := "Backward pass"

/-- RemoveNodes: delete each collected node from the graph. -/
def removeNodes (g : Graph) (toRemove : List Node) : Graph :=
  { g with nodes := g.nodes.filter (fun n => decide (n ∉ toRemove)) }

/-- FilterInitializers: collect the initializers not among the given input names, then
remove them. -/
def filterInitializers (g : Graph) (inputNames : List String) : Graph :=
  let namesToRemove := g.initializers.filter (fun i => decide (i ∉ inputNames))
  { g with initializers := g.initializers.filter (fun i => decide (i ∉ namesToRemove)) }

/-- ModuleGradientGraphBuilder::Split, acting on two copies of the combined
forward+backward graph.  Backward-tagged nodes are removed from the forward copy and
their input/output names collected, and symmetrically for the backward copy; the
intermediate references are the forward outputs also consumed by backward-tagged
nodes, minus the user outputs; inputs/outputs of both copies are rewired as in the
source and the updated metadata returned. -/
def splitFn (combined : Graph) (info : SplitInfo) : Graph × Graph × SplitInfo :=
  let backwardTagged := combined.nodes.filter (fun n => n.description == backwardMarker)
  let forwardTagged := combined.nodes.filter (fun n => !(n.description == backwardMarker))
  let forward_input_names := gatherBy Node.inputs forwardTagged
  let forward_output_names := gatherBy Node.outputs forwardTagged
  let backward_input_names := gatherBy Node.inputs backwardTagged
  let backward_output_names := gatherBy Node.outputs backwardTagged
  let intermediate_arg_names := forward_output_names.filter (fun x => decide (x ∈ backward_input_names))
  let intermediate_tensor_names := intermediate_arg_names.filter (fun x => decide (x ∉ info.user_output_names))
  let fwd0 := filterInitializers (removeNodes combined backwardTagged) forward_input_names
  let fwd : Graph :=
    { fwd0 with
        inputs := info.user_input_names ++ info.initializer_names_to_train
        outputs := info.user_output_names ++ intermediate_tensor_names }
  let bwd0 := filterInitializers (removeNodes combined forwardTagged) backward_input_names
  let backward_user_input_names :=
    info.user_input_names.filter (fun x => decide (x ∈ backward_input_names))
  let backward_initializers_as_input :=
    info.initializer_names_to_train.filter (fun x => decide (x ∈ backward_input_names))
  let bwd : Graph :=
    { bwd0 with
        initializers := bwd0.initializers.filter (fun i => decide (i ∉ backward_initializers_as_input))
        inputs := backward_user_input_names ++ backward_initializers_as_input
                    ++ intermediate_tensor_names ++ info.backward_output_grad_names
        outputs := combined.outputs.filter (fun x => decide (x ∈ backward_output_names)) }
  (fwd, bwd,
   { info with
       intermediate_tensor_names := intermediate_tensor_names
       backward_user_input_names := backward_user_input_names
       backward_intializer_names_as_input := backward_initializers_as_input })

/-- One step of the user-input loop of ReorderOutputs: for an input requiring a
gradient, ORT_ENFORCE that its gradient reference is among the current graph outputs
(modelled as the error case) and append it. -/
def reorderStep (req outNames : List String) (acc : List String × List (String × String))
    (i : String) : Except String (List String × List (String × String)) :=
  if i ∈ req then
    if (i ++ "_grad") ∈ outNames then
      .ok (acc.1 ++ [i ++ "_grad"], acc.2 ++ [(i, i ++ "_grad")])
    else
      .error "Required user input grad is not found on gradient graph."
  else
    .ok acc

/-- ModuleGradientGraphBuilder::ReorderOutputs: the new output list is the user outputs
followed by the gradient references of the user inputs that require a gradient, in
user-input order.  (The block appending the trainable-initializer gradients is
commented out in the source.) -/
def reorderOutputs (g : Graph) (info : SplitInfo) (input_names_require_grad : List String) :
    Except String (Graph × SplitInfo) :=
  match info.user_input_names.foldlM (reorderStep input_names_require_grad g.outputs) ([], []) with
  | .error e => .error e
  | .ok acc =>
    .ok ({ g with outputs := info.user_output_names ++ acc.1 },
         { info with user_input_grad_names := acc.2 })

/-- The per-gradient hand-off node added by AddYieldOp: a Yield node consuming only the
gradient reference, marked with the push_input attribute. -/
def mkGradYield (gradName : String) : Node :=
  { name := "YieldOp_" ++ gradName
    opType := "Yield"
    description := "Yield Op"
    inputs := [gradName]
    outputs := []
    attrs := [("push_input", 1)]
    domain := kMSDomain
    priority := 0 }

/-- The grad_name_map lookup of AddYieldOp: the (last) trainable initializer whose
gradient name is `gradName`. -/
def initializerOfGrad (inits : List String) (gradName : String) : String :=
  ((inits.filter (fun i => i ++ "_grad" == gradName)).getLast?).getD ""

/-- ModuleGradientGraphBuilder::AddYieldOp: add the forward Yield node whose inputs are
the user outputs (those whose gradient is not produced by any node first) and whose
outputs are the gradient references the host must supply; then, scanning the original
topological node list, add one push_input Yield node per trainable-initializer gradient
output encountered, record the corresponding initializer names in encounter order, and
finally reverse the recorded list. -/
def addYieldOp (g : Graph) (info : SplitInfo) : Graph × SplitInfo :=
  let user_output_grad_names := info.user_output_names.map (fun s => s ++ "_grad")
  let producedNames := gatherBy Node.outputs g.nodes
  let non_backward_user_output_grad_names :=
    user_output_grad_names.filter (fun s => producedNames.contains s)
  let yieldInputNames :=
    info.user_output_names.filter
      (fun s => !(non_backward_user_output_grad_names.contains (s ++ "_grad")))
    ++ info.user_output_names.filter
      (fun s => non_backward_user_output_grad_names.contains (s ++ "_grad"))
  let backward_output_grad_names :=
    (info.user_output_names.filter
      (fun s => !(non_backward_user_output_grad_names.contains (s ++ "_grad")))).map
      (fun s => s ++ "_grad")
  let fwYield : Node :=
    { name := "YieldOp_fw_op"
      opType := "Yield"
      description := "Yield Op"
      inputs := yieldInputNames
      outputs := backward_output_grad_names
      attrs := []
      domain := kMSDomain
      priority := 0 }
  let grad_names := info.initializer_names_to_train.map (fun s => s ++ "_grad")
  let encountered :=
    g.nodes.foldl (fun acc n => acc ++ n.outputs.filter (fun o => grad_names.contains o)) []
  ({ g with nodes := g.nodes ++ [fwYield] ++ encountered.map mkGradYield },
   { info with
       user_output_grad_names := user_output_grad_names
       backward_output_grad_names := backward_output_grad_names
       initializer_grad_names_to_train := grad_names
       ordered_initializer_names :=
         (info.ordered_initializer_names
           ++ encountered.map (initializerOfGrad info.initializer_names_to_train)).reverse })

/-! ## Claim-side companion definitions

These restate parts of the specification in the spec's own words, to be compared with
the definitions translated from the source. -/

/-- Chain search as the spec's words describe it: follow the first-consumer chain until
a node satisfying `target` is REACHED; if the chain dead-ends first, the target is
never reached and the search fails. -/
def chainFind (g : Graph) (target : Node → Bool) : Node → Nat → Option Node
  | _, 0 => none
  | n, fuel + 1 =>
    if target n then some n
    else
      match firstOutputNode g n with
      | none => none
      | some m => chainFind g target m fuel

/-- The end-of-layer rule as claimed: from the GELU node follow the single-consumer
chain forward to the first dropout-family node, then forward to the first
LayerNormalization node, whose first output is the end reference. -/
def specEndEdgeOf (g : Graph) (n : Node) : Option String :=
  match firstOutputNode g n with
  | none => none
  | some c =>
    match chainFind g (fun m => dropoutOps.contains m.opType) c (g.nodes.length + 1) with
    | none => none
    | some d =>
      match chainFind g (fun m => m.opType == "LayerNormalization") d (g.nodes.length + 1) with
      | none => none
      | some ln => some (ln.outputs.headD "")

/-- The end references the claim predicts. -/
def specLayerEndEdges (g : Graph) : List String :=
  g.nodes.filterMap (fun n => if geluOps.contains n.opType then specEndEdgeOf g n else none)

/-- The amended walk: stop on a node satisfying `isStop` or on a node with no output
node, whichever comes first. -/
def walkToStop (g : Graph) (isStop : Node → Bool) : Node → Nat → Node
  | n, 0 => n
  | n, fuel + 1 =>
    if isStop n then n
    else
      match firstOutputNode g n with
      | none => n
      | some m => walkToStop g isStop m fuel

/-- The amended end-of-layer rule: walk from the GELU node's first consumer until a
dropout-family node or a dead end, then until a LayerNormalization node or a dead end;
an end reference is contributed iff the final node is a LayerNormalization (which can
happen without ever passing a dropout-family node, when the chain dead-ends at a
LayerNormalization). -/
def amendedEndEdgeOf (g : Graph) (n : Node) : Option String :=
  match firstOutputNode g n with
  | none => none
  | some c =>
    let d := walkToStop g (fun m => dropoutOps.contains m.opType) c g.nodes.length
    let ln := walkToStop g (fun m => m.opType == "LayerNormalization") d g.nodes.length
    if ln.opType == "LayerNormalization" then some (ln.outputs.headD "") else none

/-- Inductive reachability through a neighbour function, seeded at a node set: the
mathematical description of what a breadth-first traversal visits. -/
inductive Reaches (g : Graph) (nbrs : Node → List Node) (seed : List Node) : Node → Prop
  | base {n : Node} : n ∈ seed → Reaches g nbrs seed n
  | step {n m : Node} : Reaches g nbrs seed n → m ∈ nbrs n → Reaches g nbrs seed m

/-- Executable acyclicity: no node is an ancestor of itself through input edges. -/
def acyclicB (g : Graph) : Bool :=
  g.nodes.all (fun n => decide (n ∉ closure g (inputNodes g) (inputNodes g n) g.nodes.length))

/-- The trainable-initializer gradient outputs in the order the topological scan of
AddYieldOp encounters them. -/
def gradYieldEncounters (g : Graph) (grad_names : List String) : List String :=
  (g.nodes.map (fun n => n.outputs.filter (fun o => grad_names.contains o))).flatten

/-! ## Breadth-first closure: soundness, saturation, completeness -/

theorem mem_expandOnce {g : Graph} {nbrs : Node → List Node} {V : List Node} {x : Node} :
    x ∈ expandOnce g nbrs V ↔ x ∈ V ∨ (x ∈ g.nodes ∧ x ∉ V ∧ ∃ v ∈ V, x ∈ nbrs v) := by
  simp [expandOnce, List.mem_filter]

theorem subset_expandOnce {g : Graph} {nbrs : Node → List Node} {V : List Node} :
    V ⊆ expandOnce g nbrs V :=
  fun _ hx => List.mem_append_left _ hx

theorem closure_sound {g : Graph} {nbrs : Node → List Node} {seed : List Node}
    {fuel : Nat} {x : Node} (hx : x ∈ closure g nbrs seed fuel) :
    Reaches g nbrs seed x := by
  induction fuel generalizing x with
  | zero => exact Reaches.base hx
  | succ f ih =>
    rcases mem_expandOnce.mp hx with h | ⟨_, _, v, hv, hnb⟩
    · exact ih h
    · exact Reaches.step (ih hv) hnb

theorem seed_subset_closure {g : Graph} {nbrs : Node → List Node} {seed : List Node}
    {fuel : Nat} : seed ⊆ closure g nbrs seed fuel := by
  induction fuel with
  | zero => exact fun _ h => h
  | succ f ih => exact fun x hx => subset_expandOnce (ih hx)

/-- The number of graph nodes not yet visited. -/
def newCount (g : Graph) (V : List Node) : Nat :=
  (g.nodes.filter (fun m => decide (m ∉ V))).length

theorem length_filter_mono {α : Type} {p q : α → Bool} :
    ∀ {l : List α}, (∀ a ∈ l, p a = true → q a = true) →
      (l.filter p).length ≤ (l.filter q).length := by
  intro l
  induction l with
  | nil => simp
  | cons a l ih =>
    intro h
    have hrest : ∀ b ∈ l, p b = true → q b = true :=
      fun b hb => h b (List.mem_cons_of_mem a hb)
    cases hp : p a with
    | true =>
      have hq : q a = true := h a (List.mem_cons_self a l) hp
      simp only [List.filter_cons, hp, hq, if_true, List.length_cons]
      exact Nat.succ_le_succ (ih hrest)
    | false =>
      cases hq : q a with
      | true =>
        simp only [List.filter_cons, hp, hq, if_true, if_false, List.length_cons]
        exact Nat.le_succ_of_le (ih hrest)
      | false =>
        simp only [List.filter_cons, hp, hq, if_false]
        exact ih hrest

theorem newCount_mono {g : Graph} {V W : List Node} (h : V ⊆ W) :
    newCount g W ≤ newCount g V := by
  refine length_filter_mono ?_
  intro a _ ha
  simp only [decide_eq_true_eq] at ha ⊢
  exact fun haV => ha (h haV)

theorem newCount_lt {g : Graph} {V W : List Node} {x : Node}
    (hxg : x ∈ g.nodes) (hxV : x ∉ V) (hxW : x ∈ W) (hVW : V ⊆ W) :
    newCount g W < newCount g V := by
  obtain ⟨l1, l2, hsplit⟩ := List.append_of_mem hxg
  have key : ∀ (l : List Node), l = l1 ++ x :: l2 →
      (l.filter (fun m => decide (m ∉ W))).length < (l.filter (fun m => decide (m ∉ V))).length := by
    intro l hl
    subst hl
    rw [List.filter_append, List.filter_append, List.filter_cons, List.filter_cons,
        List.length_append, List.length_append]
    have hxV' : decide (x ∉ V) = true := by simp [hxV]
    have hxW' : decide (x ∉ W) = false := by simp [hxW]
    rw [hxV', hxW']
    rw [if_pos rfl, if_neg (by simp)]
    simp only [List.length_cons]
    have h1 : ((l1.filter (fun m => decide (m ∉ W))).length ≤
        (l1.filter (fun m => decide (m ∉ V))).length) := by
      refine length_filter_mono ?_
      intro a _ ha
      simp only [decide_eq_true_eq] at ha ⊢
      exact fun haV => ha (hVW haV)
    have h2 : ((l2.filter (fun m => decide (m ∉ W))).length ≤
        (l2.filter (fun m => decide (m ∉ V))).length) := by
      refine length_filter_mono ?_
      intro a _ ha
      simp only [decide_eq_true_eq] at ha ⊢
      exact fun haV => ha (hVW haV)
    omega
  have := key g.nodes hsplit
  simpa [newCount] using this

theorem expandOnce_fix_or_lt (g : Graph) (nbrs : Node → List Node) (V : List Node) :
    expandOnce g nbrs V = V ∨ newCount g (expandOnce g nbrs V) < newCount g V := by
  by_cases h : g.nodes.filter
      (fun m => decide (m ∉ V) && decide (∃ v ∈ V, m ∈ nbrs v)) = []
  · left
    simp only [expandOnce]
    rw [h]
    exact List.append_nil V
  · right
    obtain ⟨x, hx⟩ := List.exists_mem_of_ne_nil _ h
    have hx' := List.mem_filter.mp hx
    have hxg : x ∈ g.nodes := hx'.1
    have hconds := hx'.2
    rw [Bool.and_eq_true, decide_eq_true_eq] at hconds
    have hxV : x ∉ V := hconds.1
    have hxW : x ∈ expandOnce g nbrs V := List.mem_append_right _ hx
    exact newCount_lt hxg hxV hxW subset_expandOnce

theorem closure_fix_propagate {g : Graph} {nbrs : Node → List Node} {seed : List Node}
    {k : Nat} (h : expandOnce g nbrs (closure g nbrs seed k) = closure g nbrs seed k) :
    ∀ j, closure g nbrs seed (k + j) = closure g nbrs seed k := by
  intro j
  induction j with
  | zero => rfl
  | succ j ih =>
    have : k + (j + 1) = (k + j) + 1 := rfl
    rw [this]
    show expandOnce g nbrs (closure g nbrs seed (k + j)) = _
    rw [ih, h]

theorem exists_fix_or_count (g : Graph) (nbrs : Node → List Node) (seed : List Node) :
    ∀ k, (∃ j ≤ k, expandOnce g nbrs (closure g nbrs seed j) = closure g nbrs seed j) ∨
      newCount g (closure g nbrs seed k) + k ≤ newCount g seed := by
  intro k
  induction k with
  | zero => right; simp [closure]
  | succ k ih =>
    rcases ih with ⟨j, hj, hfix⟩ | hcount
    · exact Or.inl ⟨j, Nat.le_succ_of_le hj, hfix⟩
    · rcases expandOnce_fix_or_lt g nbrs (closure g nbrs seed k) with hfix | hlt
      · exact Or.inl ⟨k, Nat.le_succ k, hfix⟩
      · right
        have : newCount g (closure g nbrs seed (k + 1)) < newCount g (closure g nbrs seed k) := hlt
        omega

theorem newCount_le_length (g : Graph) (V : List Node) :
    newCount g V ≤ g.nodes.length :=
  List.length_filter_le _ _

theorem closure_saturated (g : Graph) (nbrs : Node → List Node) (seed : List Node) :
    expandOnce g nbrs (closure g nbrs seed g.nodes.length) =
      closure g nbrs seed g.nodes.length := by
  rcases exists_fix_or_count g nbrs seed g.nodes.length with ⟨j, hj, hfix⟩ | hcount
  · have hprop := closure_fix_propagate hfix (g.nodes.length - j)
    rw [Nat.add_sub_cancel' hj] at hprop
    rw [hprop]
    exact hfix
  · have hle : newCount g seed ≤ g.nodes.length := newCount_le_length g seed
    have h0 : newCount g (closure g nbrs seed g.nodes.length) = 0 := by omega
    have hall : ∀ x ∈ g.nodes, x ∈ closure g nbrs seed g.nodes.length := by
      intro x hx
      by_contra hnx
      have hmem : x ∈ g.nodes.filter
          (fun m => decide (m ∉ closure g nbrs seed g.nodes.length)) :=
        List.mem_filter.mpr ⟨hx, by simp [hnx]⟩
      rw [List.length_eq_zero.mp h0] at hmem
      exact absurd hmem (List.not_mem_nil x)
    show expandOnce g nbrs _ = _
    unfold expandOnce
    have hnil : g.nodes.filter
        (fun m => decide (m ∉ closure g nbrs seed g.nodes.length) &&
          decide (∃ v ∈ closure g nbrs seed g.nodes.length, m ∈ nbrs v)) = [] := by
      rw [List.filter_eq_nil_iff]
      intro a ha
      simp only [Bool.and_eq_true, decide_eq_true_eq, not_and]
      intro hnot
      exact absurd (hall a ha) hnot
    rw [hnil, List.append_nil]

theorem closure_complete {g : Graph} {nbrs : Node → List Node} {seed : List Node}
    (H : ∀ v, nbrs v ⊆ g.nodes) {x : Node} (hx : Reaches g nbrs seed x) :
    x ∈ closure g nbrs seed g.nodes.length := by
  induction hx with
  | base h => exact seed_subset_closure h
  | @step n m hr hnb ih =>
    by_cases hmem : m ∈ closure g nbrs seed g.nodes.length
    · exact hmem
    · have : m ∈ expandOnce g nbrs (closure g nbrs seed g.nodes.length) :=
        mem_expandOnce.mpr (Or.inr ⟨H n hnb, hmem, n, ih, hnb⟩)
      rwa [closure_saturated] at this

theorem reaches_mem_nodes {g : Graph} {nbrs : Node → List Node} {seed : List Node}
    (H : ∀ v, nbrs v ⊆ g.nodes) (Hseed : seed ⊆ g.nodes) {x : Node}
    (hx : Reaches g nbrs seed x) : x ∈ g.nodes := by
  induction hx with
  | base h => exact Hseed h
  | @step n m _ hnb _ => exact H n hnb

theorem outputNodes_subset (g : Graph) (n : Node) : outputNodes g n ⊆ g.nodes :=
  fun _ hx => (List.mem_filter.mp hx).1

theorem inputNodes_subset (g : Graph) (n : Node) : inputNodes g n ⊆ g.nodes :=
  fun _ hx => (List.mem_filter.mp hx).1

theorem consumersOf_subset (g : Graph) (arg : String) : consumersOf g arg ⊆ g.nodes :=
  fun _ hx => (List.mem_filter.mp hx).1

theorem mem_fwVisited {g : Graph} {s : String} {x : Node} :
    x ∈ fwVisited g s ↔ Reaches g (outputNodes g) (consumersOf g s) x :=
  ⟨closure_sound, closure_complete (outputNodes_subset g)⟩

theorem mem_bwVisited {g : Graph} {e : String} {p : Node} (hp : producerOf g e = some p)
    {x : Node} :
    x ∈ bwVisited g e ↔ Reaches g (inputNodes g) (inputNodes g p) x := by
  unfold bwVisited
  rw [hp]
  exact ⟨closure_sound, closure_complete (inputNodes_subset g)⟩

/-- The synthetic chain `A→B→C→D` of the reachability-correctness property. -/
def chainNodeA : Node :=
  { name := "A", opType := "OpA", description := "", inputs := ["x"], outputs := ["a"],
    attrs := [], domain := "", priority := 0 }

def chainNodeB : Node :=
  { name := "B", opType := "OpB", description := "", inputs := ["a"], outputs := ["b"],
    attrs := [], domain := "", priority := 0 }

def chainNodeC : Node :=
  { name := "C", opType := "OpC", description := "", inputs := ["b"], outputs := ["c"],
    attrs := [], domain := "", priority := 0 }

def chainNodeD : Node :=
  { name := "D", opType := "OpD", description := "", inputs := ["c"], outputs := ["d"],
    attrs := [], domain := "", priority := 0 }

def chainGraph : Graph :=
  { nodes := [chainNodeA, chainNodeB, chainNodeC, chainNodeD],
    initializers := [], inputs := ["x"], outputs := ["d"] }

/-- C5: NodesBetweenEdges returns exactly the intersection of the nodes reachable
forward from the consumers of the start reference (inclusive) with the nodes reachable
backward from the producer of the end reference, the producer itself excluded; on the
chain A→B→C→D with start `a` and end `d` it returns exactly {B, C}. -/
theorem c5_nodes_between_edges :
    (∀ (g : Graph) (s e : String) (p : Node), producerOf g e = some p → acyclicB g = true →
      ((∀ n : Node, n ∈ nodesBetweenEdges g s e ↔
          (Reaches g (outputNodes g) (consumersOf g s) n ∧
           Reaches g (inputNodes g) (inputNodes g p) n))
        ∧ p ∉ nodesBetweenEdges g s e))
    ∧ nodesBetweenEdges chainGraph "a" "d" = [chainNodeB, chainNodeC] := by
  constructor
  · intro g s e p hp hacyc
    have hchar : ∀ n : Node, n ∈ nodesBetweenEdges g s e ↔
        (Reaches g (outputNodes g) (consumersOf g s) n ∧
         Reaches g (inputNodes g) (inputNodes g p) n) := by
      intro n
      unfold nodesBetweenEdges
      rw [List.mem_filter, Bool.and_eq_true, decide_eq_true_eq, decide_eq_true_eq,
          mem_fwVisited, mem_bwVisited hp]
      constructor
      · exact fun h => h.2
      · intro h
        exact ⟨reaches_mem_nodes (outputNodes_subset g) (consumersOf_subset g s) h.1, h⟩
    refine ⟨hchar, ?_⟩
    intro hmem
    have hreach : Reaches g (inputNodes g) (inputNodes g p) p := ((hchar p).mp hmem).2
    have hclosure : p ∈ closure g (inputNodes g) (inputNodes g p) g.nodes.length :=
      closure_complete (inputNodes_subset g) hreach
    have hpg : p ∈ g.nodes := by
      have := List.find?_some hp
      exact List.mem_of_find?_eq_some hp
    have hall := List.all_eq_true.mp hacyc p hpg
    rw [decide_eq_true_eq] at hall
    exact absurd hclosure hall
  · decide

/-- Witness for C5 at the concrete chain graph. -/
theorem c5_nodes_between_edges_witness :
    producerOf chainGraph "d" = some chainNodeD ∧ acyclicB chainGraph = true ∧
      chainNodeD ∉ nodesBetweenEdges chainGraph "a" "d" :=
  ⟨by decide, by decide,
   (c5_nodes_between_edges.1 chainGraph "a" "d" chainNodeD (by decide) (by decide)).2⟩

/-! ## InsertRecomputeNodes is purely additive (C9) -/

theorem insertRecompute_foldl_additive (span : List Node) :
    ∀ (l : List Node) (g : Graph),
      ∃ added : List Node,
        l.foldl (fun acc n => { acc with nodes := acc.nodes ++ [dupNode acc span n] }) g
          = { g with nodes := g.nodes ++ added } ∧ added.length = l.length := by
  intro l
  induction l with
  | nil =>
    intro g
    refine ⟨[], ?_, rfl⟩
    cases g
    simp
  | cons n l ih =>
    intro g
    obtain ⟨added, hfold, hlen⟩ := ih { g with nodes := g.nodes ++ [dupNode g span n] }
    refine ⟨[dupNode g span n] ++ added, ?_, by simp [hlen]⟩
    rw [List.foldl_cons, hfold]
    simp [List.append_assoc]

/-- C9: InsertRecomputeNodes only appends nodes — one duplicate per span node — and
leaves every pre-existing node, the initializer set and the declared inputs and
outputs untouched. -/
theorem c9_insert_recompute_additive (g : Graph) (span : List Node) :
    ∃ added : List Node,
      insertRecomputeNodes g span = { g with nodes := g.nodes ++ added } ∧
        added.length = span.length :=
  insertRecompute_foldl_additive span span g

/-! ## ApplyImpl failure behaviour (C7) and modified flag (C10) -/

/-- C7: the pass fails iff the number of start references differs from the number of
end references, and on failure the graph and the modified flag are left untouched. -/
theorem c7_fail_iff_unbalanced (g : Graph) (m : Bool) :
    (((applyImpl g m).2.2).isSome ↔ (layerStartEdges g).length ≠ (layerEndEdges g).length)
    ∧ (((applyImpl g m).2.2).isSome → (applyImpl g m).1 = g ∧ (applyImpl g m).2.1 = m) := by
  unfold applyImpl identifyTransformerLayerEdges
  by_cases h : (layerStartEdges g).length = (layerEndEdges g).length
  · simp [h]
  · simp [h]

/-- A two-node graph with one end reference and no start reference: boundary detection
is unbalanced. -/
def c7NodeGelu : Node :=
  { name := "gelu", opType := "Gelu", description := "", inputs := ["x"], outputs := ["b"],
    attrs := [], domain := "", priority := 0 }

def c7NodeLn : Node :=
  { name := "ln", opType := "LayerNormalization", description := "", inputs := ["b"],
    outputs := ["l"], attrs := [], domain := "", priority := 0 }

def c7Graph : Graph :=
  { nodes := [c7NodeGelu, c7NodeLn], initializers := [], inputs := ["x"], outputs := ["l"] }

/-- Witness for C7 on a concrete unbalanced graph. -/
theorem c7_fail_iff_unbalanced_witness :
    ((applyImpl c7Graph false).2.2).isSome ∧ (applyImpl c7Graph false).1 = c7Graph ∧
      (applyImpl c7Graph false).2.1 = false := by
  have h := c7_fail_iff_unbalanced c7Graph false
  have h1 : ((applyImpl c7Graph false).2.2).isSome := h.1.mpr (by decide)
  exact ⟨h1, (h.2 h1).1, (h.2 h1).2⟩

/-- C10: every successful run of the pass reports the graph as modified,
unconditionally. -/
theorem c10_modified_true_on_success (g : Graph) (m : Bool)
    (h : (applyImpl g m).2.2 = none) : (applyImpl g m).2.1 = true := by
  cases hid : identifyTransformerLayerEdges g with
  | error e => simp [applyImpl, hid] at h
  | ok pairs => simp [applyImpl, hid]

def emptyGraph : Graph := { nodes := [], initializers := [], inputs := [], outputs := [] }

/-- Witness for C10 on the empty graph, where boundary detection finds zero pairs and
no node is inserted, yet modified is reported true. -/
theorem c10_modified_true_on_success_witness :
    (applyImpl emptyGraph false).2.1 = true :=
  c10_modified_true_on_success emptyGraph false (by decide)

/-! ## Boundary detection: C6 -/

def c6NodeGelu : Node :=
  { name := "gelu6", opType := "Gelu", description := "", inputs := ["x"], outputs := ["b"],
    attrs := [], domain := "", priority := 0 }

def c6NodeLn : Node :=
  { name := "ln6", opType := "LayerNormalization", description := "", inputs := ["b"],
    outputs := ["l"], attrs := [], domain := "", priority := 0 }

def c6Graph : Graph :=
  { nodes := [c6NodeGelu, c6NodeLn], initializers := [], inputs := ["x"], outputs := ["l"] }

/-- C6 counterexample: in the graph Gelu→LayerNormalization, where the
LayerNormalization has no consumer, the code contributes the LayerNormalization's
output as an end reference although the chain never reaches any dropout-family node,
so the end references differ from what the claim predicts. -/
theorem c6_counterexample : layerEndEdges c6Graph ≠ specLayerEndEdges c6Graph := by
  decide

theorem walkToStop_eq_advanceChain (g : Graph) (p : Node → Bool) :
    ∀ (fuel : Nat) (n : Node), walkToStop g p n fuel = advanceChain g p n fuel := by
  intro fuel
  induction fuel with
  | zero => intro _; rfl
  | succ f ih =>
    intro n
    cases hf : firstOutputNode g n with
    | none => cases hp : p n <;> simp [walkToStop, advanceChain, hf, hp]
    | some m => cases hp : p n <;> simp [walkToStop, advanceChain, hf, hp, ih]

theorem endEdgeOf_eq_amended (g : Graph) (n : Node) :
    endEdgeOf g n = amendedEndEdgeOf g n := by
  unfold endEdgeOf amendedEndEdgeOf
  cases firstOutputNode g n <;> simp [walkToStop_eq_advanceChain]

/-- C6 amended: a node contributes a start reference iff it is a LayerNormalization or
dropout-family op with exactly 4 outgoing consumer edges; a GELU-family node
contributes an end reference by walking the first-consumer chain until a
dropout-family node or a dead end, then until a LayerNormalization or a dead end, and
contributing iff the final node is a LayerNormalization — possibly without ever
passing a dropout-family node. -/
theorem c6_boundary_detection_amended (g : Graph) :
    layerStartEdges g =
      (g.nodes.filter (fun n =>
        decide ((n.opType = "LayerNormalization" ∨ n.opType ∈ dropoutOps) ∧
          outputEdgesCount g n = 4))).map (fun n => n.outputs.headD "")
    ∧ layerEndEdges g =
      g.nodes.filterMap
        (fun n => if geluOps.contains n.opType then amendedEndEdgeOf g n else none) := by
  constructor
  · unfold layerStartEdges
    congr 1
    apply List.filter_congr
    intro n _
    unfold isLayerStart
    have hb : ∀ (x y : Bool), (x = true ↔ y = true) → x = y := by decide
    apply hb
    simp
  · unfold layerEndEdges
    simp only [endEdgeOf_eq_amended]

/-! ## Idempotence of the pass: C4 -/

/-- A graph on which the first application of the pass enables a second round of
matching: ln1 is a start (4 consumer edges) and gelu→drop→ln2 an end; the inserted
drop_recompute consumes ln0's output, lifting ln0 from 3 to exactly 4 consumer edges,
so the second application finds the new pair (z, d) and inserts another node. -/
def c4LN0 : Node :=
  { name := "ln0", opType := "LayerNormalization", description := "", inputs := ["w"],
    outputs := ["z"], attrs := [], domain := "", priority := 0 }

def c4V1 : Node :=
  { name := "v1", opType := "Add", description := "", inputs := ["z"], outputs := ["v1o"],
    attrs := [], domain := "", priority := 0 }

def c4V2 : Node :=
  { name := "v2", opType := "Add", description := "", inputs := ["z"], outputs := ["v2o"],
    attrs := [], domain := "", priority := 0 }

def c4LN1 : Node :=
  { name := "ln1", opType := "LayerNormalization", description := "", inputs := ["x"],
    outputs := ["a"], attrs := [], domain := "", priority := 0 }

def c4U1 : Node :=
  { name := "u1", opType := "Add", description := "", inputs := ["a"], outputs := ["u1o"],
    attrs := [], domain := "", priority := 0 }

def c4U2 : Node :=
  { name := "u2", opType := "Add", description := "", inputs := ["a"], outputs := ["u2o"],
    attrs := [], domain := "", priority := 0 }

def c4U3 : Node :=
  { name := "u3", opType := "Add", description := "", inputs := ["a"], outputs := ["u3o"],
    attrs := [], domain := "", priority := 0 }

def c4Gelu : Node :=
  { name := "gelu", opType := "Gelu", description := "", inputs := ["a"], outputs := ["b"],
    attrs := [], domain := "", priority := 0 }

def c4Drop : Node :=
  { name := "drop", opType := "Dropout", description := "", inputs := ["b", "z"],
    outputs := ["c", "mask"], attrs := [], domain := "", priority := 0 }

def c4LN2 : Node :=
  { name := "ln2", opType := "LayerNormalization", description := "", inputs := ["c"],
    outputs := ["d"], attrs := [], domain := "", priority := 0 }

def c4Graph : Graph :=
  { nodes := [c4LN0, c4V1, c4V2, c4LN1, c4U1, c4U2, c4U3, c4Gelu, c4Drop, c4LN2],
    initializers := [], inputs := ["x", "w"], outputs := ["d"] }

/-- C4 counterexample: both applications of the pass succeed on this graph, yet the
second application inserts a further node (10 → 12 → 13 nodes), so applying the pass
twice does not yield the same node count as applying it once. -/
theorem c4_counterexample :
    (applyImpl c4Graph false).2.2 = none ∧
    (applyImpl (applyImpl c4Graph false).1 false).2.2 = none ∧
    (applyImpl (applyImpl c4Graph false).1 false).1.nodes.length ≠
      (applyImpl c4Graph false).1.nodes.length := by
  refine ⟨by decide, by decide, by decide⟩

/-- C4 amended: the pass is not idempotent in general — recomputed non-dropout nodes
keep their original op types and the inserted consumer edges can give a previously
unmatched LayerNormalization exactly 4 outgoing edges — but when boundary detection
finds zero start/end pairs the application leaves the graph unchanged, so a second
application yields the same node count as the first. -/
theorem c4_recompute_idempotent_amended (g : Graph) (m m' : Bool)
    (h : identifyTransformerLayerEdges g = .ok []) :
    (applyImpl (applyImpl g m).1 m').1.nodes.length = (applyImpl g m).1.nodes.length := by
  have h1 : (applyImpl g m).1 = g := by simp [applyImpl, h]
  rw [h1]
  simp [applyImpl, h]

def c4SimpleNode : Node :=
  { name := "add", opType := "Add", description := "", inputs := ["x"], outputs := ["y"],
    attrs := [], domain := "", priority := 0 }

def c4SimpleGraph : Graph :=
  { nodes := [c4SimpleNode], initializers := [], inputs := ["x"], outputs := ["y"] }

/-- Witness for the amended C4 on a graph with no layer boundaries. -/
theorem c4_recompute_idempotent_amended_witness :
    (applyImpl (applyImpl c4SimpleGraph false).1 false).1.nodes.length =
      (applyImpl c4SimpleGraph false).1.nodes.length :=
  c4_recompute_idempotent_amended c4SimpleGraph false false rfl

/-! ## Name-set collection lemmas -/

theorem mem_insertName {l : List String} {x y : String} :
    y ∈ insertName l x ↔ y ∈ l ∨ y = x := by
  unfold insertName
  by_cases h : x ∈ l
  · simp only [if_pos h]
    constructor
    · exact Or.inl
    · rintro (hy | rfl)
      · exact hy
      · exact h
  · simp [if_neg h, List.mem_append]

theorem mem_insertAll {xs : List String} : ∀ {l : List String} {y : String},
    y ∈ insertAll l xs ↔ y ∈ l ∨ y ∈ xs := by
  induction xs with
  | nil => simp [insertAll]
  | cons x xs ih =>
    intro l y
    show y ∈ insertAll (insertName l x) xs ↔ _
    rw [ih, mem_insertName]
    simp [List.mem_cons]
    tauto

theorem mem_gatherBy {f : Node → List String} {nodes : List Node} {y : String} :
    y ∈ gatherBy f nodes ↔ ∃ n ∈ nodes, y ∈ f n := by
  suffices h : ∀ (ns : List Node) (acc : List String) (z : String),
      z ∈ ns.foldl (fun acc n => insertAll acc (f n)) acc ↔ z ∈ acc ∨ ∃ n ∈ ns, z ∈ f n by
    have := h nodes [] y
    simpa [gatherBy] using this
  intro ns
  induction ns with
  | nil => simp
  | cons n ns ih =>
    intro acc z
    rw [List.foldl_cons, ih, mem_insertAll]
    simp [List.mem_cons]
    tauto

/-! ## Split: C2 and C3 -/

/-- C2: after Split, the forward graph holds exactly the nodes not tagged with the
backward-pass marker, the backward graph exactly the tagged ones, and every node of
the combined graph lands in exactly one of the two. -/
theorem c2_split_completeness (combined : Graph) (info : SplitInfo) :
    (splitFn combined info).1.nodes =
      combined.nodes.filter (fun n => !(n.description == backwardMarker))
    ∧ (splitFn combined info).2.1.nodes =
      combined.nodes.filter (fun n => n.description == backwardMarker)
    ∧ ∀ n ∈ combined.nodes,
        (n ∈ (splitFn combined info).1.nodes ∧ n ∉ (splitFn combined info).2.1.nodes) ∨
        (n ∉ (splitFn combined info).1.nodes ∧ n ∈ (splitFn combined info).2.1.nodes) := by
  have hfwd : (splitFn combined info).1.nodes =
      combined.nodes.filter (fun n => !(n.description == backwardMarker)) := by
    show combined.nodes.filter
        (fun n => decide (n ∉ combined.nodes.filter (fun n => n.description == backwardMarker)))
      = _
    apply List.filter_congr
    intro n hn
    by_cases hb : (n.description == backwardMarker) = true
    · have hmem : n ∈ combined.nodes.filter (fun n => n.description == backwardMarker) :=
        List.mem_filter.mpr ⟨hn, hb⟩
      simp [hmem, hb]
    · have hmem : n ∉ combined.nodes.filter (fun n => n.description == backwardMarker) :=
        fun hc => hb (List.mem_filter.mp hc).2
      simp [hmem, hb]
  have hbwd : (splitFn combined info).2.1.nodes =
      combined.nodes.filter (fun n => n.description == backwardMarker) := by
    show combined.nodes.filter
        (fun n => decide (n ∉ combined.nodes.filter (fun n => !(n.description == backwardMarker))))
      = _
    apply List.filter_congr
    intro n hn
    by_cases hb : (n.description == backwardMarker) = true
    · have hmem : n ∉ combined.nodes.filter (fun n => !(n.description == backwardMarker)) := by
        intro hc
        have h2 := (List.mem_filter.mp hc).2
        rw [hb] at h2
        simp at h2
      simp [hmem, hb]
    · have hmem : n ∈ combined.nodes.filter (fun n => !(n.description == backwardMarker)) :=
        List.mem_filter.mpr ⟨hn, by simp [hb]⟩
      simp [hmem, hb]
  refine ⟨hfwd, hbwd, ?_⟩
  intro n hn
  by_cases hb : (n.description == backwardMarker) = true
  · right
    constructor
    · rw [hfwd]
      intro hc
      have := (List.mem_filter.mp hc).2
      simp [hb] at this
    · rw [hbwd]
      exact List.mem_filter.mpr ⟨hn, hb⟩
  · left
    constructor
    · rw [hfwd]
      exact List.mem_filter.mpr ⟨hn, by simp [hb]⟩
    · rw [hbwd]
      intro hc
      exact hb (List.mem_filter.mp hc).2

/-- A three-node combined graph: two forward nodes and one backward-tagged node
consuming the intermediate activation `h`. -/
def c23Fwd1 : Node :=
  { name := "fc", opType := "MatMul", description := "", inputs := ["x"], outputs := ["h"],
    attrs := [], domain := "", priority := 0 }

def c23Fwd2 : Node :=
  { name := "act", opType := "Relu", description := "", inputs := ["h"], outputs := ["y"],
    attrs := [], domain := "", priority := 0 }

def c23Bwd : Node :=
  { name := "actgrad", opType := "ReluGrad", description := "Backward pass",
    inputs := ["h", "y_grad"], outputs := ["x_grad"], attrs := [], domain := "", priority := 0 }

def c23Graph : Graph :=
  { nodes := [c23Fwd1, c23Fwd2, c23Bwd], initializers := [], inputs := ["x"],
    outputs := ["y", "x_grad"] }

def c23Info : SplitInfo :=
  { user_input_names := ["x"], user_output_names := ["y"],
    backward_output_grad_names := ["y_grad"] }

/-- Witness for C2 at a concrete combined graph. -/
theorem c2_split_completeness_witness :
    c23Fwd1 ∈ (splitFn c23Graph c23Info).1.nodes ∧
      c23Fwd1 ∉ (splitFn c23Graph c23Info).2.1.nodes := by
  rcases (c2_split_completeness c23Graph c23Info).2.2 c23Fwd1 (by decide) with h | h
  · exact h
  · exact absurd h.2 (by decide)

/-- C3: the intermediate-tensor list recorded by Split is exactly the set of outputs
of forward (untagged) nodes that are also inputs of some backward-tagged node, minus
the user outputs, and every such name is placed in the forward graph's declared
outputs and in the backward graph's declared inputs. -/
theorem c3_intermediate_closure (combined : Graph) (info : SplitInfo) (x : String) :
    (x ∈ (splitFn combined info).2.2.intermediate_tensor_names ↔
      ((∃ n ∈ combined.nodes, ¬ n.description = backwardMarker ∧ x ∈ n.outputs) ∧
       (∃ m ∈ combined.nodes, m.description = backwardMarker ∧ x ∈ m.inputs) ∧
       x ∉ info.user_output_names))
    ∧ (x ∈ (splitFn combined info).2.2.intermediate_tensor_names →
        x ∈ (splitFn combined info).1.outputs ∧ x ∈ (splitFn combined info).2.1.inputs) := by
  have hchar : x ∈ (splitFn combined info).2.2.intermediate_tensor_names ↔
      ((∃ n ∈ combined.nodes, ¬ n.description = backwardMarker ∧ x ∈ n.outputs) ∧
       (∃ m ∈ combined.nodes, m.description = backwardMarker ∧ x ∈ m.inputs) ∧
       x ∉ info.user_output_names) := by
    show x ∈ ((gatherBy Node.outputs
          (combined.nodes.filter (fun n => !(n.description == backwardMarker)))).filter
        (fun y => decide (y ∈ gatherBy Node.inputs
          (combined.nodes.filter (fun n => n.description == backwardMarker))))).filter
        (fun y => decide (y ∉ info.user_output_names)) ↔ _
    rw [List.mem_filter, List.mem_filter]
    simp only [decide_eq_true_eq, mem_gatherBy, List.mem_filter, Bool.not_eq_true',
      beq_iff_eq, beq_eq_false_iff_ne]
    tauto
  refine ⟨hchar, fun hx => ⟨?_, ?_⟩⟩
  · exact List.mem_append_right _ hx
  · exact List.mem_append_left _ (List.mem_append_right _ hx)

/-- Witness for C3: the activation `h` crosses the forward→backward boundary. -/
theorem c3_intermediate_closure_witness :
    "h" ∈ (splitFn c23Graph c23Info).1.outputs ∧
      "h" ∈ (splitFn c23Graph c23Info).2.1.inputs :=
  (c3_intermediate_closure c23Graph c23Info "h").2 (by decide)

/-! ## ReorderOutputs: C1 -/

/-- A gradient graph just before ReorderOutputs whose outputs hold the user output,
a required user-input gradient and a trainable-initializer gradient. -/
def c1Graph : Graph :=
  { nodes := [], initializers := [], inputs := [],
    outputs := ["y", "x_grad", "w_grad"] }

def c1Info : SplitInfo :=
  { user_input_names := ["x"], user_output_names := ["y"],
    initializer_names_to_train := ["w"] }

/-- C1 counterexample: ReorderOutputs keeps only the user outputs and the required
user-input gradients; the trainable-initializer gradient `w_grad` is NOT appended
(the appending block is commented out in the source), so the finalized output list
differs from the three-part list the claim asserts. -/
theorem c1_counterexample :
    (reorderOutputs c1Graph c1Info ["x"]).map (fun r => r.1.outputs) =
      .ok ["y", "x_grad"] ∧
    (["y", "x_grad"] : List String) ≠
      c1Info.user_output_names ++ ["x_grad"] ++
        (c1Info.initializer_names_to_train.map (fun s => s ++ "_grad")) :=
  ⟨rfl, by decide⟩

theorem reorder_foldlM_grads (req outNames : List String) :
    ∀ (l : List String) (acc r : List String × List (String × String)),
      l.foldlM (reorderStep req outNames) acc = .ok r →
      r.1 = acc.1 ++ (l.filter (fun i => decide (i ∈ req))).map (fun i => i ++ "_grad") := by
  intro l
  induction l with
  | nil =>
    intro acc r h
    simp only [List.foldlM_nil] at h
    cases h
    simp
  | cons i l ih =>
    intro acc r h
    rw [List.foldlM_cons] at h
    unfold reorderStep at h
    by_cases hi : i ∈ req
    · rw [if_pos hi] at h
      by_cases hg : (i ++ "_grad") ∈ outNames
      · rw [if_pos hg] at h
        have hr := ih _ _ h
        rw [hr]
        simp [List.filter_cons, hi, List.append_assoc]
      · rw [if_neg hg] at h
        simp [Bind.bind, Except.bind] at h
    · rw [if_neg hi] at h
      have hr := ih _ _ h
      rw [hr]
      simp [List.filter_cons, hi]

/-- C1 amended: after a successful ReorderOutputs, the declared outputs are exactly
the user outputs followed by the gradient references of the user inputs that require a
gradient, in user-input order; trainable-initializer gradients are not appended (they
are handed off through the per-gradient Yield nodes instead). -/
theorem c1_reorder_outputs_amended (g : Graph) (info : SplitInfo) (req : List String)
    (g' : Graph) (info' : SplitInfo)
    (h : reorderOutputs g info req = .ok (g', info')) :
    g'.outputs = info.user_output_names ++
      (info.user_input_names.filter (fun i => decide (i ∈ req))).map
        (fun i => i ++ "_grad") := by
  unfold reorderOutputs at h
  cases hfold : info.user_input_names.foldlM (reorderStep req g.outputs) ([], []) with
  | error e =>
    rw [hfold] at h
    cases h
  | ok acc =>
    rw [hfold] at h
    cases h
    have hr := reorder_foldlM_grads req g.outputs info.user_input_names ([], []) acc hfold
    simp at hr
    show info.user_output_names ++ acc.1 = _
    rw [hr]

/-- Witness for the amended C1 at the concrete pre-state. -/
theorem c1_reorder_outputs_amended_witness :
    ({ c1Graph with outputs := ["y", "x_grad"] } : Graph).outputs =
      c1Info.user_output_names ++
        (c1Info.user_input_names.filter (fun i => decide (i ∈ (["x"] : List String)))).map
          (fun i => i ++ "_grad") :=
  c1_reorder_outputs_amended c1Graph c1Info ["x"]
    { c1Graph with outputs := ["y", "x_grad"] }
    { c1Info with user_input_grad_names := [("x", "x_grad")] } rfl

/-! ## AddYieldOp: C8 -/

theorem foldl_append_filter_flatten (p : String → Bool) :
    ∀ (nodes : List Node) (acc : List String),
      nodes.foldl (fun acc n => acc ++ n.outputs.filter p) acc =
        acc ++ (nodes.map (fun n => n.outputs.filter p)).flatten := by
  intro nodes
  induction nodes with
  | nil => simp
  | cons n ns ih =>
    intro acc
    rw [List.foldl_cons, ih]
    simp [List.append_assoc]

/-- C8: AddYieldOp adds exactly one push_input-marked Yield node per
trainable-initializer gradient output encountered during the topological scan, each
consuming only that gradient, and the recorded ordered-initializer list is the reverse
of the encounter order, mapped back to the initializer names. -/
theorem c8_grad_yields (g : Graph) (info : SplitInfo)
    (h0 : info.ordered_initializer_names = [])
    (h1 : ∀ n ∈ g.nodes, ("push_input", (1 : Int)) ∉ n.attrs) :
    (addYieldOp g info).1.nodes.filter
        (fun n => decide (("push_input", (1 : Int)) ∈ n.attrs))
      = (gradYieldEncounters g
          (info.initializer_names_to_train.map (fun s => s ++ "_grad"))).map mkGradYield
    ∧ (addYieldOp g info).2.ordered_initializer_names
      = ((gradYieldEncounters g
            (info.initializer_names_to_train.map (fun s => s ++ "_grad"))).map
          (initializerOfGrad info.initializer_names_to_train)).reverse := by
  have henc : g.nodes.foldl
      (fun acc n => acc ++ n.outputs.filter
        (fun o => (info.initializer_names_to_train.map (fun s => s ++ "_grad")).contains o)) []
      = gradYieldEncounters g (info.initializer_names_to_train.map (fun s => s ++ "_grad")) := by
    rw [foldl_append_filter_flatten]
    simp [gradYieldEncounters]
  constructor
  · show (g.nodes ++ [_] ++ _).filter _ = _
    rw [List.filter_append, List.filter_append]
    have hg : g.nodes.filter (fun n => decide (("push_input", (1 : Int)) ∈ n.attrs)) = [] := by
      rw [List.filter_eq_nil_iff]
      intro a ha
      simp [h1 a ha]
    have hyields : ∀ (l : List String),
        (l.map mkGradYield).filter (fun n => decide (("push_input", (1 : Int)) ∈ n.attrs))
          = l.map mkGradYield := by
      intro l
      rw [List.filter_eq_self]
      intro a ha
      obtain ⟨s, _, rfl⟩ := List.mem_map.mp ha
      simp [mkGradYield]
    rw [hg, hyields, henc]
    simp [mkGradYield, kMSDomain]
  · show (info.ordered_initializer_names ++ _).reverse = _
    rw [h0, henc]
    simp

/-- Two backward nodes producing the two trainable-initializer gradients in topological
order; the recorded initializer order must come out reversed. -/
def c8Node1 : Node :=
  { name := "grad1", opType := "MatMulGrad", description := "Backward pass",
    inputs := ["t"], outputs := ["w1_grad"], attrs := [], domain := "", priority := 0 }

def c8Node2 : Node :=
  { name := "grad2", opType := "MatMulGrad", description := "Backward pass",
    inputs := ["t"], outputs := ["w2_grad"], attrs := [], domain := "", priority := 0 }

def c8Graph : Graph :=
  { nodes := [c8Node1, c8Node2], initializers := [], inputs := ["t"], outputs := ["y"] }

def c8Info : SplitInfo :=
  { user_input_names := ["t"], user_output_names := ["y"],
    initializer_names_to_train := ["w1", "w2"] }

/-- Witness for C8 at the concrete graph. -/
theorem c8_grad_yields_witness :
    (addYieldOp c8Graph c8Info).1.nodes.filter
        (fun n => decide (("push_input", (1 : Int)) ∈ n.attrs))
      = (gradYieldEncounters c8Graph
          (c8Info.initializer_names_to_train.map (fun s => s ++ "_grad"))).map mkGradYield
    ∧ (addYieldOp c8Graph c8Info).2.ordered_initializer_names
      = ((gradYieldEncounters c8Graph
            (c8Info.initializer_names_to_train.map (fun s => s ++ "_grad"))).map
          (initializerOfGrad c8Info.initializer_names_to_train)).reverse :=
  c8_grad_yields c8Graph c8Info rfl (by decide)

end OrtGraph
